import Mathlib

/-!
Verification development for the student / difficulty-record matching
utility (a Tauri desktop app whose front-end logic lives in
`src/lib/command/upload.ts`, `src/lib/command/student-search.ts` and a
sibling module). JavaScript strings are embedded as lists of characters
(`Str`); JavaScript objects with string keys are embedded as
insertion-ordered association lists. Each front-end function is
translated directly from its TypeScript source; the matching engine
itself runs in the external backend process and is modelled from the
specification where noted.
-/

/-- Strings of the embedded program: JavaScript strings as character lists. -/
abbrev Str := List Char

/-- Embedding of JavaScript `String.prototype.toLowerCase` (per character). -/
def lower (s : Str) : Str := s.map Char.toLower

/-- Whitespace test used by the embedding of `String.prototype.trim`. -/
def wsB (c : Char) : Bool := c.isWhitespace

/-- Embedding of JavaScript `String.prototype.trim`: drop whitespace from
both ends. -/
def trim (s : Str) : Str := ((s.dropWhile wsB).reverse.dropWhile wsB).reverse

/-- Embedding of JavaScript `String.prototype.includes` restricted to a
one-sided check that `term` occurs at the start of `s`. -/
def begins : Str → Str → Bool
  | [], _ => true
  | _ :: _, [] => false
  | c :: cs, d :: ds => decide (c = d) && begins cs ds

/-- Embedding of JavaScript `s.includes(term)`: `term` occurs contiguously
somewhere in `s`. -/
def occursIn : Str → Str → Bool
  | term, [] => term.isEmpty
  | term, d :: ds => begins term (d :: ds) || occursIn term ds

/-- `Student` record from `upload.ts`: name and identity number required,
the remaining fields optional. -/
structure Student where
  name : Str
  id_number : Str
  student_id : Option Str
  class_ : Option Str
  grade : Option Str
  school : Option Str
deriving DecidableEq

/-- `DifficultStudent` record from `upload.ts`. -/
structure DifficultStudent where
  name : Str
  id_number : Str
  difficulty_type : Str
  source_file : Str
  extra_info : List (Str × Str)
deriving DecidableEq

/-- `MatchResult` from `upload.ts`: one student paired with one
difficulty record. -/
structure MatchResult where
  student : Student
  difficult_info : DifficultStudent
deriving DecidableEq

/-- Fixed enumeration of difficulty-type categories, from the
`DifficultyType` union type of the upload module. -/
def difficultyTypeValues : List Str :=
  ["脱贫户(继续享受政策)".toList, "脱贫户(不享受政策)".toList,
   "持证残疾人".toList, "农村低保".toList, "城镇低保".toList,
   "城乡特困".toList, "防返贫监测对象(风险未消除)".toList,
   "防返贫监测对象(风险已消除)".toList, "孤儿及事实无人抚养儿童".toList,
   "低收入人口".toList]

/-- `maskIdNumber` from `upload.ts`: first 3 characters, a literal
`****`, then the last 3 characters, when the identity number has at
least 6 characters; the fixed placeholder `****` otherwise. The input is
never mutated (the embedding is a pure function returning a new list). -/
def maskIdNumber (idNumber : Str) : Str :=
  if 6 ≤ idNumber.length then
    idNumber.take 3 ++ "****".toList ++ idNumber.drop (idNumber.length - 3)
  else
    "****".toList

/-- Embedding of JavaScript `String.prototype.split` with a single
character separator: `""` splits to `[""]`, separators at the ends yield
empty components. -/
def splitOnChar (sep : Char) : Str → List Str
  | [] => [[]]
  | c :: rest =>
    match splitOnChar sep rest with
    | [] => [[c]]
    | h :: t => if c = sep then [] :: h :: t else (c :: h) :: t

/-- Embedding of JavaScript `Array.prototype.pop` on a string array read
as a value: the last component, or `""` on an empty array. -/
def lastOf (l : List Str) : Str := l.getLast?.getD []

/-- `isExcelFile` from `upload.ts`: lowercase the file name, split on
`.`, take the last component and compare with `xlsx` / `xls`. -/
def isExcelFile (fileName : Str) : Bool :=
  decide (lastOf (splitOnChar '.' (lower fileName)) = "xlsx".toList) ||
  decide (lastOf (splitOnChar '.' (lower fileName)) = "xls".toList)

/-- Everything after the last `.` of a string (the whole string when it
has no `.`): the phrasing the implicit claim about `isExcelFile` uses,
defined independently of `splitOnChar` for comparison. -/
def afterLastDot (s : Str) : Str :=
  (s.reverse.takeWhile (fun c => !(decide (c = '.')))).reverse

/-- Lookup in an insertion-ordered association list: JavaScript property
read `obj[k]` on an object embedded as such a list. -/
def alookup {β : Type} : List (Str × β) → Str → Option β
  | [], _ => none
  | (k, v) :: rest, t => if k = t then some v else alookup rest t

/-- One step of the counting loop of `generateMatchSummary`: JavaScript
`obj[type] = (obj[type] || 0) + 1` on an insertion-ordered object. -/
def incrCount : List (Str × Nat) → Str → List (Str × Nat)
  | [], t => [(t, 1)]
  | (k, v) :: rest, t =>
    if k = t then (k, v + 1) :: rest else (k, v) :: incrCount rest t

/-- `generateMatchSummary` from `upload.ts`: total number of matches and,
as an insertion-ordered object, a count per difficulty type occurring in
the results. -/
def generateMatchSummary (results : List MatchResult) :
    Nat × List (Str × Nat) :=
  (results.length,
   results.foldl
     (fun acc result => incrCount acc result.difficult_info.difficulty_type)
     [])

/-- One step of the grouping loop of `groupMatchesByDifficultyType`:
JavaScript `if (!grouped[type]) grouped[type] = []; grouped[type].push(match)`. -/
def pushGroup : List (Str × List MatchResult) → Str → MatchResult →
    List (Str × List MatchResult)
  | [], t, m => [(t, [m])]
  | (k, l) :: rest, t, m =>
    if k = t then (k, l ++ [m]) :: rest else (k, l) :: pushGroup rest t m

/-- `groupMatchesByDifficultyType` from the student-search module: an
insertion-ordered object mapping each difficulty type occurring in the
input to the list of matches carrying it. -/
def groupMatchesByDifficultyType (ms : List MatchResult) :
    List (Str × List MatchResult) :=
  ms.foldl
    (fun acc m => pushGroup acc m.difficult_info.difficulty_type m) []

/-- JavaScript truthiness-guarded search on an optional field, as in
`match.student.student_id && match.student.student_id.toLowerCase().includes(term)`:
an absent field and the empty string are both falsy. -/
def optFalsyCheck (o : Option Str) (term : Str) : Bool :=
  match o with
  | none => false
  | some s => !s.isEmpty && occursIn term (lower s)

/-- Filtering predicate of `searchInMatches`: the term occurs in the
lowercased name, literally in the identity number, or (when the field is
present and non-empty) in the lowercased student id or class. -/
def matchesTerm (term : Str) (m : MatchResult) : Bool :=
  occursIn term (lower m.student.name) ||
  occursIn term m.student.id_number ||
  optFalsyCheck m.student.student_id term ||
  optFalsyCheck m.student.class_ term

/-- `searchInMatches` from the student-search module: the input list
unchanged when the trimmed term is empty, otherwise the filter by
`matchesTerm` of the lowercased trimmed term. -/
def searchInMatches (ms : List MatchResult) (searchTerm : Str) :
    List MatchResult :=
  if trim searchTerm = [] then ms
  else ms.filter (matchesTerm (trim (lower searchTerm)))

/-- Result shape of `validateSearchParameters`: a validity flag and an
optional error message. -/
structure ValidationOutcome where
  valid : Bool
  error : Option Str
deriving DecidableEq

/-- `validateSearchParameters` from `student-search.ts`: the three
parameters are checked in order; a parameter whose trim is empty stops
the check with the corresponding message. -/
def validateSearchParameters (studentFilePath difficultyFilePath difficultyType : Str) :
    ValidationOutcome :=
  if trim studentFilePath = [] then
    ⟨false, some "请选择学生信息表文件".toList⟩
  else if trim difficultyFilePath = [] then
    ⟨false, some "请选择困难类型数据表文件".toList⟩
  else if trim difficultyType = [] then
    ⟨false, some "请选择困难类型".toList⟩
  else
    ⟨true, none⟩

/-- `CommandResult<T>` from `upload.ts`: the tagged result every backend
command returns. -/
structure CommandResult (α : Type) where
  success : Bool
  data : Option α
  error : Option Str
deriving DecidableEq

/-- `MatchStatistics` from `student-search.ts`, the counts object
embedded as an insertion-ordered association list. -/
structure MatchStatistics where
  total_students : Nat
  total_matches : Nat
  difficulty_type_counts : List (Str × Nat)
deriving DecidableEq

/-- Zeroed statistics object used by the failure branches of
`executeStudentSearch`. -/
def emptyStatistics : MatchStatistics := ⟨0, 0, []⟩

/-- Shape of the combined value returned by `executeStudentSearch`. -/
structure SearchOutcome where
  matches_ : List MatchResult
  statistics : MatchStatistics
  success : Bool
  error : Option Str
deriving DecidableEq

/-- JavaScript `a || d` on an optional string `a` with string default
`d`: `null` and the empty string both fall through to the default. -/
def jsOrStr (o : Option Str) (d : Str) : Str :=
  match o with
  | none => d
  | some s => if s = [] then d else s

/-- Fallback message of the match-failure branch of
`executeStudentSearch`. -/
def matchFailMsg : Str := "查找学生失败".toList

/-- Fallback message of the statistics-failure branch of
`executeStudentSearch`. -/
def statsFailMsg : Str := "获取统计信息失败".toList

/-- Message prefix of the catch branch of `executeStudentSearch`. -/
def caughtMsgHead : Str := "执行查找时发生错误: ".toList

/-- Combination logic of `executeStudentSearch` from
`student-search.ts`, given the settled results of the two awaited
backend calls: a failed match call wins, then a failed statistics call,
else both data payloads are passed through (`null` payloads replaced by
empty defaults, as by the JavaScript `||`). -/
def executeStudentSearchPure (matchResult : CommandResult (List MatchResult))
    (statsResult : CommandResult MatchStatistics) : SearchOutcome :=
  if matchResult.success = false then
    ⟨[], emptyStatistics, false, some (jsOrStr matchResult.error matchFailMsg)⟩
  else if statsResult.success = false then
    ⟨matchResult.data.getD [], emptyStatistics, false,
     some (jsOrStr statsResult.error statsFailMsg)⟩
  else
    ⟨matchResult.data.getD [], statsResult.data.getD emptyStatistics, true, none⟩

/-- `executeStudentSearch` from `student-search.ts`, over the outcome of
awaiting both backend calls: either the pair of settled results, or the
thrown value caught by the surrounding `try`/`catch`, which is rendered
into the catch branch's message. -/
def executeStudentSearch
    (outcome : Except Str (CommandResult (List MatchResult) × CommandResult MatchStatistics)) :
    SearchOutcome :=
  match outcome with
  | .ok (matchResult, statsResult) => executeStudentSearchPure matchResult statsResult
  | .error e => ⟨[], emptyStatistics, false, some (caughtMsgHead ++ e)⟩

/-- Modelled from the spec: the student lookup of the matching engine.
The engine runs in the external backend process behind the Tauri command
`find_students_by_difficulty`; its implementation is not under `src/`.
Spec §4.1: a lookup keyed by identity number over the student table,
last-write-wins on duplicate identity numbers. -/
def studentLookup (students : List Student) (idn : Str) : Option Student :=
  (students.filter (fun s => s.id_number = idn)).getLast?

/-- Modelled from the spec: `find_matches(students, difficulty_records,
category)` of the matching engine (backend command
`find_students_by_difficulty`, not under `src/`). Spec §4.1: filter the
difficulty records to those whose difficulty type equals the category,
look each one's identity number up in the student table, emit a
`MatchResult` on a hit and silently drop the record otherwise; the
operation is total, raising no error. -/
def find_matches (students : List Student) (difficulty_records : List DifficultStudent)
    (category : Str) : List MatchResult :=
  (difficulty_records.filter (fun r => r.difficulty_type = category)).filterMap
    (fun r => (studentLookup students r.id_number).map (fun s => ⟨s, r⟩))

/-- A string trims to empty exactly when every character is whitespace
(vacuously, when it is empty). -/
theorem trim_eq_nil_iff (s : Str) : trim s = [] ↔ ∀ c ∈ s, wsB c = true := by
  unfold trim
  rw [List.reverse_eq_nil_iff, List.dropWhile_eq_nil_iff]
  constructor
  · intro h c hc
    have hs := List.takeWhile_append_dropWhile wsB s
    rw [← hs] at hc
    rcases List.mem_append.1 hc with h1 | h2
    · exact List.mem_takeWhile_imp h1
    · exact h c (List.mem_reverse.2 h2)
  · intro h c hc
    have h2 := List.mem_reverse.1 hc
    have hs := List.takeWhile_append_dropWhile wsB s
    refine h c ?_
    rw [← hs]
    exact List.mem_append.2 (Or.inr h2)

/-- Splitting never yields an empty component list. -/
theorem split_ne_nil (sep : Char) (s : Str) : splitOnChar sep s ≠ [] := by
  cases s with
  | nil => simp [splitOnChar]
  | cons c rest =>
    rw [splitOnChar]
    cases h : splitOnChar sep rest with
    | nil => simp
    | cons a t =>
      dsimp only
      split <;> simp

/-- Splitting a string without the separator yields the whole string as
the single component. -/
theorem split_no_sep (sep : Char) (s : Str) (h : sep ∉ s) :
    splitOnChar sep s = [s] := by
  induction s with
  | nil => rfl
  | cons c rest ih =>
    have hc : ¬c = sep := fun hcc => h (hcc ▸ List.mem_cons_self c rest)
    have hrest : sep ∉ rest := fun hr => h (List.mem_cons_of_mem c hr)
    rw [splitOnChar, ih hrest]
    simp [hc]

/-- Splitting a string containing the separator yields at least two
components. -/
theorem split_two_le (sep : Char) (s : Str) (h : sep ∈ s) :
    2 ≤ (splitOnChar sep s).length := by
  induction s with
  | nil => cases h
  | cons c rest ih =>
    rw [splitOnChar]
    cases hr : splitOnChar sep rest with
    | nil => exact absurd hr (split_ne_nil sep rest)
    | cons a t =>
      by_cases hc : c = sep
      · simp [hc]
      · have hmem : sep ∈ rest := by
          rcases List.mem_cons.1 h with h1 | h2
          · exact absurd h1.symm hc
          · exact h2
        have := ih hmem
        rw [hr] at this
        simp only [hc, if_false]
        simpa using this

/-- Appending after a fully satisfying block continues the take. -/
theorem takeWhile_append_all {p : Char → Bool} (xs ys : Str)
    (h : ∀ x ∈ xs, p x = true) :
    (xs ++ ys).takeWhile p = xs ++ ys.takeWhile p := by
  induction xs with
  | nil => simp
  | cons a xs ih =>
    have ha := h a (List.mem_cons_self a xs)
    simp only [List.cons_append, List.takeWhile_cons, ha, if_true]
    rw [ih (fun x hx => h x (List.mem_cons_of_mem a hx))]

/-- Appending after a block containing a failing element does not change
the take. -/
theorem takeWhile_append_stop {p : Char → Bool} (xs ys : Str) (x : Char)
    (hx : x ∈ xs) (hpx : p x = false) :
    (xs ++ ys).takeWhile p = xs.takeWhile p := by
  induction xs with
  | nil => cases hx
  | cons a xs ih =>
    by_cases hpa : p a = true
    · rcases List.mem_cons.1 hx with h1 | h2
      · rw [h1] at hpx
        rw [hpa] at hpx
        cases hpx
      · simp only [List.cons_append, List.takeWhile_cons, hpa, if_true]
        rw [ih h2]
    · have hpa' : p a = false := by
        cases hv : p a
        · rfl
        · exact absurd hv hpa
      simp only [List.cons_append, List.takeWhile_cons, hpa', Bool.false_eq_true,
        if_false]

/-- Without a dot, the suffix after the last dot is the whole string. -/
theorem afterLastDot_no_dot (s : Str) (h : '.' ∉ s) : afterLastDot s = s := by
  unfold afterLastDot
  have hall : ∀ x ∈ s.reverse, (!(decide (x = '.'))) = true := by
    intro x hx
    have hxs := List.mem_reverse.1 hx
    have : ¬x = '.' := fun he => h (he ▸ hxs)
    simp [this]
  rw [List.takeWhile_eq_self_iff.2 hall, List.reverse_reverse]

/-- A prepended character is invisible to the suffix after the last dot
when a dot occurs later. -/
theorem afterLastDot_cons_mem (c : Char) (s : Str) (h : '.' ∈ s) :
    afterLastDot (c :: s) = afterLastDot s := by
  unfold afterLastDot
  rw [List.reverse_cons]
  rw [takeWhile_append_stop s.reverse [c] '.' (List.mem_reverse.2 h) (by simp)]

/-- A dot prepended to a dot-free string is the last dot: the suffix is
that string. -/
theorem afterLastDot_dot_cons (s : Str) (h : '.' ∉ s) :
    afterLastDot ('.' :: s) = s := by
  unfold afterLastDot
  rw [List.reverse_cons]
  have hall : ∀ x ∈ s.reverse, (!(decide (x = '.'))) = true := by
    intro x hx
    have hxs := List.mem_reverse.1 hx
    have : ¬x = '.' := fun he => h (he ▸ hxs)
    simp [this]
  rw [takeWhile_append_all s.reverse ['.'] hall]
  simp

/-- A non-dot character prepended to a dot-free string keeps the whole
string as the suffix after the last dot. -/
theorem afterLastDot_cons_no (c : Char) (s : Str) (hc : ¬c = '.')
    (h : '.' ∉ s) : afterLastDot (c :: s) = c :: s := by
  have : '.' ∉ c :: s := by
    intro hm
    rcases List.mem_cons.1 hm with h1 | h2
    · exact hc h1.symm
    · exact h h2
  exact afterLastDot_no_dot (c :: s) this

/-- The last component of the dot-split of a string is exactly the
suffix after its last dot. -/
theorem lastOf_split (s : Str) : lastOf (splitOnChar '.' s) = afterLastDot s := by
  induction s with
  | nil => rfl
  | cons c rest ih =>
    rw [splitOnChar]
    cases hr : splitOnChar '.' rest with
    | nil => exact absurd hr (split_ne_nil '.' rest)
    | cons h t =>
      dsimp only
      by_cases hc : c = '.'
      · rw [if_pos hc]
        have l1 : lastOf ([] :: h :: t) = lastOf (h :: t) := by
          unfold lastOf
          rw [List.getLast?_cons_cons]
        rw [l1, ← hr, ih, hc]
        by_cases hdot : '.' ∈ rest
        · rw [afterLastDot_cons_mem '.' rest hdot]
        · rw [afterLastDot_no_dot rest hdot, afterLastDot_dot_cons rest hdot]
      · rw [if_neg hc]
        cases t with
        | nil =>
          have hno : '.' ∉ rest := by
            intro hmem
            have h2 := split_two_le '.' rest hmem
            rw [hr] at h2
            simp at h2
          have hh : h = rest := by
            have he := split_no_sep '.' rest hno
            rw [hr] at he
            exact (List.cons_eq_cons.1 he).1
          rw [hh]
          have l1 : lastOf [c :: rest] = c :: rest := rfl
          rw [l1, afterLastDot_cons_no c rest hc hno]
        | cons t0 t1 =>
          have hdot : '.' ∈ rest := by
            by_contra hno
            have he := split_no_sep '.' rest hno
            rw [hr] at he
            cases he
          have l1 : lastOf ((c :: h) :: t0 :: t1) = lastOf (h :: t0 :: t1) := by
            unfold lastOf
            rw [List.getLast?_cons_cons, List.getLast?_cons_cons]
          rw [l1, ← hr, ih, afterLastDot_cons_mem c rest hdot]

/-- Matches carrying a given difficulty type, in input order. -/
def ofType (R : List MatchResult) (t : Str) : List MatchResult :=
  R.filter (fun m => decide (m.difficult_info.difficulty_type = t))

/-- Lookup misses exactly the keys absent from the object. -/
theorem alookup_eq_none_iff {β : Type} [Inhabited β] (g : List (Str × β))
    (t : Str) : alookup g t = none ↔ t ∉ g.map Prod.fst := by
  induction g with
  | nil => simp [alookup]
  | cons kv rest ih =>
    obtain ⟨k, v⟩ := kv
    by_cases hk : k = t
    · simp [alookup, hk]
    · have h2 : ¬t = k := fun he => hk he.symm
      simp [alookup, hk, ih, h2]

/-- Incrementing a key sets it to its previous value (default 0) plus one. -/
theorem alookup_incr_self (acc : List (Str × Nat)) (t : Str) :
    alookup (incrCount acc t) t = some ((alookup acc t).getD 0 + 1) := by
  induction acc with
  | nil => simp [incrCount, alookup]
  | cons kv rest ih =>
    obtain ⟨k, v⟩ := kv
    by_cases hk : k = t
    · simp [incrCount, alookup, hk]
    · simp [incrCount, alookup, hk, ih]

/-- Incrementing a key leaves every other key unchanged. -/
theorem alookup_incr_other (acc : List (Str × Nat)) (t u : Str) (h : ¬u = t) :
    alookup (incrCount acc t) u = alookup acc u := by
  induction acc with
  | nil =>
    have h2 : ¬t = u := fun he => h he.symm
    simp [incrCount, alookup, h2]
  | cons kv rest ih =>
    obtain ⟨k, v⟩ := kv
    by_cases hk : k = t
    · subst hk
      have h2 : ¬k = u := fun he => h he.symm
      simp [incrCount, alookup, h2]
    · simp [incrCount, alookup, hk, ih]

/-- Key list of an increment: unchanged on a hit, the new key appended
on a miss. -/
theorem incr_keys (acc : List (Str × Nat)) (t : Str) :
    (incrCount acc t).map Prod.fst =
      if t ∈ acc.map Prod.fst then acc.map Prod.fst
      else acc.map Prod.fst ++ [t] := by
  induction acc with
  | nil => simp [incrCount]
  | cons kv rest ih =>
    obtain ⟨k, v⟩ := kv
    by_cases hk : k = t
    · simp [incrCount, hk]
    · have h2 : ¬t = k := fun he => hk he.symm
      by_cases hmem : t ∈ rest.map Prod.fst
      · simp [incrCount, hk, ih, hmem, h2]
      · simp [incrCount, hk, ih, hmem, h2]

/-- Incrementing preserves distinctness of the keys. -/
theorem nodup_incr (acc : List (Str × Nat)) (t : Str)
    (h : (acc.map Prod.fst).Nodup) : ((incrCount acc t).map Prod.fst).Nodup := by
  rw [incr_keys]
  by_cases hmem : t ∈ acc.map Prod.fst
  · simpa [hmem] using h
  · simp only [hmem, if_false]
    refine List.Nodup.append h (List.nodup_singleton t) ?_
    simp [List.disjoint_singleton, hmem]

/-- Running the counting loop over a list adds, at every key, the number
of its occurrences to whatever the accumulator already holds. -/
theorem summary_fold (R : List MatchResult) :
    ∀ (acc : List (Str × Nat)) (t : Str),
      alookup
        (R.foldl (fun a r => incrCount a r.difficult_info.difficulty_type) acc)
        t =
        if (ofType R t).length = 0 then alookup acc t
        else some ((alookup acc t).getD 0 + (ofType R t).length) := by
  induction R with
  | nil =>
    intro acc t
    simp [ofType]
  | cons m R ih =>
    intro acc t
    rw [List.foldl_cons]
    rw [ih]
    by_cases hm : m.difficult_info.difficulty_type = t
    · have hof : ofType (m :: R) t = m :: ofType R t := by
        simp [ofType, hm]
      rw [hof, hm]
      by_cases h0 : (ofType R t).length = 0
      · simp [h0, alookup_incr_self]
      · simp only [List.length_cons, Nat.succ_ne_zero, if_false, h0,
          alookup_incr_self]
        have : Nat.succ ((ofType R t).length) ≠ 0 := Nat.succ_ne_zero _
        simp only [Option.getD_some]
        congr 1
        omega
    · have hof : ofType (m :: R) t = ofType R t := by
        simp [ofType, hm]
      have h2 : ¬t = m.difficult_info.difficulty_type := fun he => hm he.symm
      rw [hof, alookup_incr_other acc m.difficult_info.difficulty_type t h2]

/-- Running the counting loop preserves distinctness of the keys. -/
theorem summary_fold_nodup (R : List MatchResult) :
    ∀ (acc : List (Str × Nat)), (acc.map Prod.fst).Nodup →
      ((R.foldl (fun a r => incrCount a r.difficult_info.difficulty_type) acc).map
          Prod.fst).Nodup := by
  induction R with
  | nil => intro acc h; exact h
  | cons m R ih =>
    intro acc h
    rw [List.foldl_cons]
    exact ih _ (nodup_incr acc m.difficult_info.difficulty_type h)

/-- Pushing onto a key appends the match to its previous list (default
empty). -/
theorem alookup_push_self (acc : List (Str × List MatchResult)) (t : Str)
    (m : MatchResult) :
    alookup (pushGroup acc t m) t = some ((alookup acc t).getD [] ++ [m]) := by
  induction acc with
  | nil => simp [pushGroup, alookup]
  | cons kv rest ih =>
    obtain ⟨k, v⟩ := kv
    by_cases hk : k = t
    · simp [pushGroup, alookup, hk]
    · simp [pushGroup, alookup, hk, ih]

/-- Pushing onto a key leaves every other key unchanged. -/
theorem alookup_push_other (acc : List (Str × List MatchResult)) (t u : Str)
    (m : MatchResult) (h : ¬u = t) :
    alookup (pushGroup acc t m) u = alookup acc u := by
  induction acc with
  | nil =>
    have h2 : ¬t = u := fun he => h he.symm
    simp [pushGroup, alookup, h2]
  | cons kv rest ih =>
    obtain ⟨k, v⟩ := kv
    by_cases hk : k = t
    · subst hk
      have h2 : ¬k = u := fun he => h he.symm
      simp [pushGroup, alookup, h2]
    · simp [pushGroup, alookup, hk, ih]

/-- Key list of a push: unchanged on a hit, the new key appended on a
miss. -/
theorem push_keys (acc : List (Str × List MatchResult)) (t : Str)
    (m : MatchResult) :
    (pushGroup acc t m).map Prod.fst =
      if t ∈ acc.map Prod.fst then acc.map Prod.fst
      else acc.map Prod.fst ++ [t] := by
  induction acc with
  | nil => simp [pushGroup]
  | cons kv rest ih =>
    obtain ⟨k, v⟩ := kv
    by_cases hk : k = t
    · simp [pushGroup, hk]
    · have h2 : ¬t = k := fun he => hk he.symm
      by_cases hmem : t ∈ rest.map Prod.fst
      · simp [pushGroup, hk, ih, hmem, h2]
      · simp [pushGroup, hk, ih, hmem, h2]

/-- Pushing preserves distinctness of the keys. -/
theorem nodup_push (acc : List (Str × List MatchResult)) (t : Str)
    (m : MatchResult) (h : (acc.map Prod.fst).Nodup) :
    ((pushGroup acc t m).map Prod.fst).Nodup := by
  rw [push_keys]
  by_cases hmem : t ∈ acc.map Prod.fst
  · simpa [hmem] using h
  · simp only [hmem, if_false]
    refine List.Nodup.append h (List.nodup_singleton t) ?_
    simp [List.disjoint_singleton, hmem]

/-- Pushing grows the total size of the groups by one. -/
theorem push_sum (acc : List (Str × List MatchResult)) (t : Str)
    (m : MatchResult) :
    ((pushGroup acc t m).map (fun g => g.2.length)).sum =
      (acc.map (fun g => g.2.length)).sum + 1 := by
  induction acc with
  | nil => simp [pushGroup]
  | cons kv rest ih =>
    obtain ⟨k, v⟩ := kv
    by_cases hk : k = t
    · simp [pushGroup, hk]
      omega
    · simp [pushGroup, hk, ih]
      omega

/-- Running the grouping loop over a list appends, at every key, the
matches of that type (in order) to whatever the accumulator already
holds. -/
theorem group_fold (R : List MatchResult) :
    ∀ (acc : List (Str × List MatchResult)) (t : Str),
      alookup
        (R.foldl (fun a m => pushGroup a m.difficult_info.difficulty_type m) acc)
        t =
        if ofType R t = [] then alookup acc t
        else some ((alookup acc t).getD [] ++ ofType R t) := by
  induction R with
  | nil =>
    intro acc t
    simp [ofType]
  | cons m R ih =>
    intro acc t
    rw [List.foldl_cons, ih]
    by_cases hm : m.difficult_info.difficulty_type = t
    · have hof : ofType (m :: R) t = m :: ofType R t := by
        simp [ofType, hm]
      rw [hof, hm]
      by_cases h0 : ofType R t = []
      · simp [h0, alookup_push_self]
      · simp only [h0, if_false, List.cons_ne_nil, alookup_push_self,
          Option.getD_some]
        rw [List.append_assoc, List.singleton_append]
    · have hof : ofType (m :: R) t = ofType R t := by
        simp [ofType, hm]
      have h2 : ¬t = m.difficult_info.difficulty_type := fun he => hm he.symm
      rw [hof, alookup_push_other acc m.difficult_info.difficulty_type t m h2]

/-- Running the grouping loop preserves distinctness of the keys. -/
theorem group_fold_nodup (R : List MatchResult) :
    ∀ (acc : List (Str × List MatchResult)), (acc.map Prod.fst).Nodup →
      ((R.foldl (fun a m => pushGroup a m.difficult_info.difficulty_type m)
          acc).map Prod.fst).Nodup := by
  induction R with
  | nil => intro acc h; exact h
  | cons m R ih =>
    intro acc h
    rw [List.foldl_cons]
    exact ih _ (nodup_push acc m.difficult_info.difficulty_type m h)

/-- Running the grouping loop grows the total size of the groups by the
length of the processed list. -/
theorem group_fold_sum (R : List MatchResult) :
    ∀ (acc : List (Str × List MatchResult)),
      ((R.foldl (fun a m => pushGroup a m.difficult_info.difficulty_type m)
          acc).map (fun g => g.2.length)).sum =
        (acc.map (fun g => g.2.length)).sum + R.length := by
  induction R with
  | nil => intro acc; simp
  | cons m R ih =>
    intro acc
    rw [List.foldl_cons, ih, push_sum]
    simp [Nat.add_assoc, Nat.add_comm 1 R.length]

/-- Falling back on a non-empty default, the JavaScript `||` on an error
message never yields the empty string. -/
theorem jsOr_ne_nil (o : Option Str) (d : Str) (hd : d ≠ []) :
    jsOrStr o d ≠ [] := by
  cases o with
  | none => exact hd
  | some s =>
    by_cases hs : s = []
    · simp [jsOrStr, hs]
      exact hd
    · simp [jsOrStr, hs]

/-- C1: for every identity-number string, `maskIdNumber` preserves the
first 3 and last 3 characters around the fixed mask `****` when the
string has at least 6 characters (in particular on the 18-character
example), and returns the fixed placeholder `****` for every shorter
string; as a pure function on immutable lists it never alters its
input. -/
theorem C1_maskIdNumber_spec :
    (∀ s : Str, 6 ≤ s.length →
      maskIdNumber s = s.take 3 ++ "****".toList ++ s.drop (s.length - 3)) ∧
    maskIdNumber "123456789012345678".toList = "123****678".toList ∧
    (∀ s : Str, s.length < 6 → maskIdNumber s = "****".toList) := by
  refine ⟨?_, ?_, ?_⟩
  · intro s h
    simp [maskIdNumber, h]
  · rfl
  · intro s h
    have h2 : ¬6 ≤ s.length := by omega
    simp [maskIdNumber, h2]

/-- Witness for C1 at concrete inputs of length 6 and length 2. -/
theorem C1_maskIdNumber_spec_witness :
    maskIdNumber "abcdef".toList = "abc****def".toList ∧
    maskIdNumber "ab".toList = "****".toList := by
  constructor
  · rw [C1_maskIdNumber_spec.1 "abcdef".toList (by decide)]
    rfl
  · exact C1_maskIdNumber_spec.2.2 "ab".toList (by decide)

/-- C2 counterexample: feed `executeStudentSearch` a failed match call
and a successful statistics call carrying non-trivial statistics; the
combined result zeroes the statistics instead of making the successful
statistics data available. -/
theorem C2_executeStudentSearch_counterexample :
    executeStudentSearchPure ⟨false, none, some "boom".toList⟩
        ⟨true, some ⟨7, 3, [("农村低保".toList, 3)]⟩, none⟩ =
      ⟨[], emptyStatistics, false, some "boom".toList⟩ ∧
    (⟨7, 3, [("农村低保".toList, 3)]⟩ : MatchStatistics) ≠ emptyStatistics := by
  exact ⟨rfl, by decide⟩

/-- C2 (amended): the two backend calls are combined so that a failed
match call yields a failed result carrying that call's error message
(with a fixed fallback when the message is absent or empty) and resets
both matches and statistics to empty defaults — the successful
statistics data is discarded; a failed statistics call (with a
successful match call) yields a failed result carrying its error
message, with the match call's data still made available as the
matches; when both succeed the result is successful and carries both
payloads. -/
theorem C2_executeStudentSearch_amended
    (mr : CommandResult (List MatchResult))
    (sr : CommandResult MatchStatistics) :
    (mr.success = false →
      executeStudentSearchPure mr sr =
        ⟨[], emptyStatistics, false, some (jsOrStr mr.error matchFailMsg)⟩) ∧
    (mr.success = true → sr.success = false →
      executeStudentSearchPure mr sr =
        ⟨mr.data.getD [], emptyStatistics, false,
         some (jsOrStr sr.error statsFailMsg)⟩) ∧
    (mr.success = true → sr.success = true →
      executeStudentSearchPure mr sr =
        ⟨mr.data.getD [], sr.data.getD emptyStatistics, true, none⟩) := by
  refine ⟨?_, ?_, ?_⟩
  · intro h
    simp [executeStudentSearchPure, h]
  · intro h1 h2
    simp [executeStudentSearchPure, h1, h2]
  · intro h1 h2
    simp [executeStudentSearchPure, h1, h2]

/-- Witness for C2 (amended) at a concrete pair with a failed statistics
call. -/
theorem C2_executeStudentSearch_amended_witness :
    executeStudentSearchPure ⟨true, none, none⟩ ⟨false, none, none⟩ =
      ⟨[], emptyStatistics, false, some statsFailMsg⟩ := by
  rw [(C2_executeStudentSearch_amended ⟨true, none, none⟩
    ⟨false, none, none⟩).2.1 rfl rfl]
  rfl

/-- C3: the summary's total equals the number of match results, and its
counts object has exactly one entry per difficulty type present among
the results — holding the number of results of that type — and no entry
(in particular no zero-filled one) for any absent type. -/
theorem C3_generateMatchSummary_spec (R : List MatchResult) :
    (generateMatchSummary R).1 = R.length ∧
    (∀ t : Str,
      alookup (generateMatchSummary R).2 t =
        if (ofType R t).length = 0 then none
        else some (ofType R t).length) ∧
    ((generateMatchSummary R).2.map Prod.fst).Nodup ∧
    (∀ t : Str, t ∈ (generateMatchSummary R).2.map Prod.fst ↔
      (ofType R t).length ≠ 0) := by
  have hchar : ∀ t : Str,
      alookup (generateMatchSummary R).2 t =
        if (ofType R t).length = 0 then none
        else some (ofType R t).length := by
    intro t
    have h := summary_fold R [] t
    simpa [alookup] using h
  refine ⟨rfl, hchar, ?_, ?_⟩
  · exact summary_fold_nodup R [] (by simp)
  · intro t
    have hnone := alookup_eq_none_iff (generateMatchSummary R).2 t
    constructor
    · intro hmem h0
      have hl := hchar t
      rw [if_pos h0] at hl
      exact hnone.1 hl hmem
    · intro h0
      by_contra hmem
      have hl := hchar t
      rw [if_neg h0] at hl
      rw [hnone.2 hmem] at hl
      cases hl

/-- Concrete student used by witnesses. -/
def stW : Student :=
  ⟨"A".toList, "123456789012345678".toList, none, none, none, none⟩

/-- Concrete difficulty record used by witnesses. -/
def drW : DifficultStudent :=
  ⟨"A".toList, "123456789012345678".toList, "农村低保".toList,
   "low.xlsx".toList, []⟩

/-- Concrete match result used by witnesses. -/
def mW : MatchResult := ⟨stW, drW⟩

/-- C4: every match emitted by the modelled engine carries the requested
category as its difficulty type, pairs a student of the student table
with a record of the difficulty table, and the two share the identity
number under exact string equality; the operation is total, so
unmatched difficulty records are dropped without any error. -/
theorem C4_find_matches_spec (S : List Student) (D : List DifficultStudent)
    (C : Str) :
    ∀ m ∈ find_matches S D C,
      m.difficult_info.difficulty_type = C ∧ m.difficult_info ∈ D ∧
      m.student ∈ S ∧ m.student.id_number = m.difficult_info.id_number := by
  intro m hm
  unfold find_matches at hm
  rw [List.mem_filterMap] at hm
  obtain ⟨r, hr, he⟩ := hm
  rw [List.mem_filter] at hr
  obtain ⟨hrD, hrt⟩ := hr
  rw [Option.map_eq_some'] at he
  obtain ⟨st, hlook, hmk⟩ := he
  unfold studentLookup at hlook
  have hmem := List.mem_of_getLast?_eq_some hlook
  rw [List.mem_filter] at hmem
  obtain ⟨hS, hid⟩ := hmem
  subst hmk
  refine ⟨?_, hrD, hS, ?_⟩
  · simpa using hrt
  · simpa using hid

/-- Witness for C4: one student and one matching record of the requested
category. -/
theorem C4_find_matches_spec_witness :
    mW ∈ find_matches [stW] [drW] "农村低保".toList ∧
    (mW.difficult_info.difficulty_type = "农村低保".toList ∧
     mW.difficult_info ∈ [drW] ∧ mW.student ∈ [stW] ∧
     mW.student.id_number = mW.difficult_info.id_number) :=
  ⟨by decide,
   C4_find_matches_spec [stW] [drW] "农村低保".toList mW (by decide)⟩

/-- C5: for difficulty tables drawn from the fixed enumeration of
categories, a category outside the enumeration yields the empty match
list — a successful empty outcome of a total function, not an error. -/
theorem C5_find_matches_unknown_category (S : List Student)
    (D : List DifficultStudent) (C : Str)
    (hD : ∀ r ∈ D, r.difficulty_type ∈ difficultyTypeValues)
    (hC : C ∉ difficultyTypeValues) :
    find_matches S D C = [] := by
  unfold find_matches
  have hf : ∀ r ∈ D, ¬(decide (r.difficulty_type = C) = true) := by
    intro r hr
    simp only [decide_eq_true_eq]
    intro he
    exact hC (he ▸ hD r hr)
  rw [List.filter_eq_nil_iff.2 hf]
  rfl

/-- Witness for C5 at a populated pair of tables and the unknown
category string `xxx`. -/
theorem C5_find_matches_unknown_category_witness :
    (∀ r ∈ [drW], r.difficulty_type ∈ difficultyTypeValues) ∧
    "xxx".toList ∉ difficultyTypeValues ∧
    find_matches [stW] [drW] "xxx".toList = [] :=
  ⟨by decide, by decide,
   C5_find_matches_unknown_category [stW] [drW] "xxx".toList (by decide)
     (by decide)⟩

/-- C6: validation fails, with a non-empty message, exactly when one of
the three parameters is empty or whitespace-only; the checks run in
order, so the message names the first missing selection; otherwise the
result is valid with no error. The function is pure, so no engine call
is involved. -/
theorem C6_validateSearchParameters_spec (sp dp dt : Str) :
    ((validateSearchParameters sp dp dt).valid = false ↔
      ((∀ c ∈ sp, wsB c = true) ∨ (∀ c ∈ dp, wsB c = true) ∨
       (∀ c ∈ dt, wsB c = true))) ∧
    ((validateSearchParameters sp dp dt).valid = false →
      ∃ e, (validateSearchParameters sp dp dt).error = some e ∧ e ≠ []) ∧
    ((∀ c ∈ sp, wsB c = true) →
      (validateSearchParameters sp dp dt).error =
        some "请选择学生信息表文件".toList) ∧
    (¬(∀ c ∈ sp, wsB c = true) → (∀ c ∈ dp, wsB c = true) →
      (validateSearchParameters sp dp dt).error =
        some "请选择困难类型数据表文件".toList) ∧
    (¬(∀ c ∈ sp, wsB c = true) → ¬(∀ c ∈ dp, wsB c = true) →
      (∀ c ∈ dt, wsB c = true) →
      (validateSearchParameters sp dp dt).error =
        some "请选择困难类型".toList) ∧
    ((validateSearchParameters sp dp dt).valid = true →
      (validateSearchParameters sp dp dt).error = none) := by
  have e1 := trim_eq_nil_iff sp
  have e2 := trim_eq_nil_iff dp
  have e3 := trim_eq_nil_iff dt
  by_cases h1 : trim sp = []
  · have b1 : ∀ c ∈ sp, wsB c = true := e1.1 h1
    refine ⟨?_, ?_, ?_, ?_, ?_, ?_⟩
    · constructor
      · intro _
        exact Or.inl b1
      · intro _
        simp [validateSearchParameters, h1]
    · intro _
      exact ⟨"请选择学生信息表文件".toList,
        by simp [validateSearchParameters, h1], by decide⟩
    · intro _
      simp [validateSearchParameters, h1]
    · intro hn _
      exact absurd b1 hn
    · intro hn _ _
      exact absurd b1 hn
    · intro hv
      simp [validateSearchParameters, h1] at hv
  · have nb1 : ¬(∀ c ∈ sp, wsB c = true) := fun hb => h1 (e1.2 hb)
    by_cases h2 : trim dp = []
    · have b2 : ∀ c ∈ dp, wsB c = true := e2.1 h2
      refine ⟨?_, ?_, ?_, ?_, ?_, ?_⟩
      · constructor
        · intro _
          exact Or.inr (Or.inl b2)
        · intro _
          simp [validateSearchParameters, h1, h2]
      · intro _
        exact ⟨"请选择困难类型数据表文件".toList,
          by simp [validateSearchParameters, h1, h2], by decide⟩
      · intro hb
        exact absurd hb nb1
      · intro _ _
        simp [validateSearchParameters, h1, h2]
      · intro _ hn _
        exact absurd b2 hn
      · intro hv
        simp [validateSearchParameters, h1, h2] at hv
    · have nb2 : ¬(∀ c ∈ dp, wsB c = true) := fun hb => h2 (e2.2 hb)
      by_cases h3 : trim dt = []
      · have b3 : ∀ c ∈ dt, wsB c = true := e3.1 h3
        refine ⟨?_, ?_, ?_, ?_, ?_, ?_⟩
        · constructor
          · intro _
            exact Or.inr (Or.inr b3)
          · intro _
            simp [validateSearchParameters, h1, h2, h3]
        · intro _
          exact ⟨"请选择困难类型".toList,
            by simp [validateSearchParameters, h1, h2, h3], by decide⟩
        · intro hb
          exact absurd hb nb1
        · intro _ hb
          exact absurd hb nb2
        · intro _ _ _
          simp [validateSearchParameters, h1, h2, h3]
        · intro hv
          simp [validateSearchParameters, h1, h2, h3] at hv
      · have nb3 : ¬(∀ c ∈ dt, wsB c = true) := fun hb => h3 (e3.2 hb)
        refine ⟨?_, ?_, ?_, ?_, ?_, ?_⟩
        · constructor
          · intro hv
            simp [validateSearchParameters, h1, h2, h3] at hv
          · intro hd
            rcases hd with hb | hb | hb
            · exact absurd hb nb1
            · exact absurd hb nb2
            · exact absurd hb nb3
        · intro hv
          simp [validateSearchParameters, h1, h2, h3] at hv
        · intro hb
          exact absurd hb nb1
        · intro _ hb
          exact absurd hb nb2
        · intro _ _ hb
          exact absurd hb nb3
        · intro _
          simp [validateSearchParameters, h1, h2, h3]

/-- Witness for C6: a whitespace-only student path is reported with the
first message. -/
theorem C6_validateSearchParameters_spec_witness :
    (validateSearchParameters " ".toList "d".toList "t".toList).error =
      some "请选择学生信息表文件".toList :=
  (C6_validateSearchParameters_spec " ".toList "d".toList "t".toList).2.2.1
    (by decide)

/-- C7: `executeStudentSearch` is a total function into the tagged
result shape — even a thrown error is caught and rendered — and every
unsuccessful result carries a non-empty error message. -/
theorem C7_executeStudentSearch_total
    (o : Except Str
      (CommandResult (List MatchResult) × CommandResult MatchStatistics)) :
    (executeStudentSearch o).success = false →
    ∃ e, (executeStudentSearch o).error = some e ∧ e ≠ [] := by
  intro hf
  cases o with
  | error e =>
    refine ⟨caughtMsgHead ++ e, rfl, ?_⟩
    simp [caughtMsgHead]
  | ok p =>
    obtain ⟨mr, sr⟩ := p
    by_cases hm : mr.success = false
    · refine ⟨jsOrStr mr.error matchFailMsg, ?_, ?_⟩
      · simp [executeStudentSearch, executeStudentSearchPure, hm]
      · exact jsOr_ne_nil mr.error matchFailMsg (by decide)
    · by_cases hs : sr.success = false
      · refine ⟨jsOrStr sr.error statsFailMsg, ?_, ?_⟩
        · simp [executeStudentSearch, executeStudentSearchPure, hm, hs]
        · exact jsOr_ne_nil sr.error statsFailMsg (by decide)
      · exfalso
        simp [executeStudentSearch, executeStudentSearchPure, hm, hs] at hf

/-- Witness for C7 at a concrete thrown error. -/
theorem C7_executeStudentSearch_total_witness :
    (executeStudentSearch
        (Except.error "x".toList :
          Except Str
            (CommandResult (List MatchResult) ×
              CommandResult MatchStatistics))).success = false ∧
    ∃ e,
      (executeStudentSearch
          (Except.error "x".toList :
            Except Str
              (CommandResult (List MatchResult) ×
                CommandResult MatchStatistics))).error = some e ∧ e ≠ [] :=
  ⟨rfl, C7_executeStudentSearch_total (Except.error "x".toList) rfl⟩

/-- C8: `isExcelFile` accepts a file name exactly when the lowercased
text after its last dot — which is the entire lowercased name when there
is no dot, so a file literally named `xls` is accepted — equals `xlsx`
or `xls`. -/
theorem C8_isExcelFile_spec :
    (∀ f : Str, isExcelFile f = true ↔
      (afterLastDot (lower f) = "xlsx".toList ∨
       afterLastDot (lower f) = "xls".toList)) ∧
    isExcelFile "xls".toList = true := by
  constructor
  · intro f
    unfold isExcelFile
    rw [lastOf_split (lower f)]
    simp
  · rfl

/-- C9: the grouping partitions its input — each difficulty type present
maps to exactly the (ordered) matches of that type, the keys are
distinct and are exactly the types present, every match lands in the
group of its own type, the group sizes sum to the input length, and each
group's size agrees with the summary's count for that type. -/
theorem C9_groupMatchesByDifficultyType_partition (R : List MatchResult) :
    (∀ t : Str,
      alookup (groupMatchesByDifficultyType R) t =
        if ofType R t = [] then none else some (ofType R t)) ∧
    ((groupMatchesByDifficultyType R).map Prod.fst).Nodup ∧
    (∀ t : Str, t ∈ (groupMatchesByDifficultyType R).map Prod.fst ↔
      ofType R t ≠ []) ∧
    (∀ m ∈ R, ∃ l,
      alookup (groupMatchesByDifficultyType R)
          m.difficult_info.difficulty_type = some l ∧ m ∈ l) ∧
    ((groupMatchesByDifficultyType R).map (fun g => g.2.length)).sum =
      R.length ∧
    (∀ t l, alookup (groupMatchesByDifficultyType R) t = some l →
      alookup (generateMatchSummary R).2 t = some l.length) := by
  have hchar : ∀ t : Str,
      alookup (groupMatchesByDifficultyType R) t =
        if ofType R t = [] then none else some (ofType R t) := by
    intro t
    have h := group_fold R [] t
    simpa [alookup] using h
  have hsum : ∀ t : Str,
      alookup (generateMatchSummary R).2 t =
        if (ofType R t).length = 0 then none
        else some (ofType R t).length := by
    intro t
    have h := summary_fold R [] t
    simpa [alookup] using h
  refine ⟨hchar, ?_, ?_, ?_, ?_, ?_⟩
  · exact group_fold_nodup R [] (by simp)
  · intro t
    have hnone := alookup_eq_none_iff (groupMatchesByDifficultyType R) t
    constructor
    · intro hmem h0
      have hl := hchar t
      rw [if_pos h0] at hl
      exact hnone.1 hl hmem
    · intro h0
      by_contra hmem
      have hl := hchar t
      rw [if_neg h0] at hl
      rw [hnone.2 hmem] at hl
      cases hl
  · intro m hm
    have hmem : m ∈ ofType R m.difficult_info.difficulty_type := by
      rw [ofType, List.mem_filter]
      exact ⟨hm, by simp⟩
    have h0 : ofType R m.difficult_info.difficulty_type ≠ [] :=
      List.ne_nil_of_mem hmem
    refine ⟨ofType R m.difficult_info.difficulty_type, ?_, hmem⟩
    rw [hchar m.difficult_info.difficulty_type, if_neg h0]
  · have h := group_fold_sum R []
    simpa using h
  · intro t l hl
    rw [hchar t] at hl
    by_cases h0 : ofType R t = []
    · rw [if_pos h0] at hl
      cases hl
    · rw [if_neg h0] at hl
      have hlen : (ofType R t).length ≠ 0 := by
        intro hz
        exact h0 (List.eq_nil_of_length_eq_zero hz)
      rw [hsum t, if_neg hlen]
      cases hl
      rfl

/-- C10: searching with an empty or whitespace-only term returns the
input unchanged; otherwise the result is a subsequence of the input
(every returned element is an element of the input, unmodified), and
each returned element matches the lowercased trimmed term in at least
one of the searched fields. -/
theorem C10_searchInMatches_spec (R : List MatchResult) (s : Str) :
    (trim s = [] → searchInMatches R s = R) ∧
    (trim s ≠ [] →
      List.Sublist (searchInMatches R s) R ∧
      (∀ m ∈ searchInMatches R s, m ∈ R) ∧
      (∀ m ∈ searchInMatches R s,
        matchesTerm (trim (lower s)) m = true)) := by
  constructor
  · intro h
    simp [searchInMatches, h]
  · intro h
    have hdef : searchInMatches R s =
        R.filter (matchesTerm (trim (lower s))) := by
      simp [searchInMatches, h]
    refine ⟨?_, ?_, ?_⟩
    · rw [hdef]
      exact List.filter_sublist R
    · intro m hm
      rw [hdef] at hm
      exact (List.mem_filter.1 hm).1
    · intro m hm
      rw [hdef] at hm
      exact (List.mem_filter.1 hm).2

/-- Witness for C10: a one-letter term that hits the witness match. -/
theorem C10_searchInMatches_spec_witness :
    trim "a".toList ≠ [] ∧
    List.Sublist (searchInMatches [mW] "a".toList) [mW] :=
  ⟨by decide,
   ((C10_searchInMatches_spec [mW] "a".toList).2 (by decide)).1⟩

/-- Witness for C3: the singleton list of the witness match yields one
total match and a count of one for its category. -/
theorem C3_generateMatchSummary_spec_witness :
    (generateMatchSummary [mW]).1 = [mW].length ∧
    alookup (generateMatchSummary [mW]).2 "农村低保".toList = some 1 := by
  constructor
  · exact (C3_generateMatchSummary_spec [mW]).1
  · rw [(C3_generateMatchSummary_spec [mW]).2.1 "农村低保".toList]
    decide

/-- Witness for C8: an upper-case extension after a dot is accepted. -/
theorem C8_isExcelFile_spec_witness : isExcelFile "a.XLS".toList = true :=
  (C8_isExcelFile_spec.1 "a.XLS".toList).2 (Or.inr (by decide))

/-- Witness for C9: the witness match lands in the group of its own
difficulty type. -/
theorem C9_groupMatchesByDifficultyType_partition_witness :
    ∃ l, alookup (groupMatchesByDifficultyType [mW])
        mW.difficult_info.difficulty_type = some l ∧ mW ∈ l :=
  (C9_groupMatchesByDifficultyType_partition [mW]).2.2.2.1 mW (by decide)
